import Mathlib

/-!
Verification of the IMAP mailbox state synchronization core
(`crates/imap/src/core/message.rs`).

The Rust code is shallowly embedded: hash maps (`AHashMap`) become
association lists with unique keys, the ordered `BTreeMap` becomes a
key-sorted association list, machine integers become `Nat`
(`saturating_sub` becomes truncated `Nat` subtraction), and the store
reads performed by the async functions become explicit arguments.
-/

namespace Imap

/-- `ImapId` from the source: a message's uid together with the 1-based
sequence number it had in the snapshot that produced it. -/
structure ImapId where
  uid : Nat
  seqnum : Nat
deriving DecidableEq, Repr

/-- `ImapUidToId` from the source: a `(uid, message id)` pair handed to
`append_messages` after an APPEND/COPY/MOVE. -/
structure ImapUidToId where
  uid : Nat
  id : Nat
deriving DecidableEq, Repr

/-- `jmap::mailbox::UidMailbox`: the store-side record that message `m`
belongs to `mailbox_id` with the given `uid`. -/
structure UidMailbox where
  mailbox_id : Nat
  uid : Nat
deriving DecidableEq, Repr

/-- The snapshot fields of the Rust `MailboxState` (the spec's
`MailboxSnapshot`): everything except the staged `next_state`. -/
structure MailboxSnapshot where
  uid_next : Nat
  uid_validity : Nat
  total_messages : Nat
  id_to_imap : List (Nat × ImapId)
  uid_to_id : List (Nat × Nat)
  uid_max : Nat
  modseq : Option Nat
deriving DecidableEq, Repr

/-- `NextMailboxState` from the source: a staged snapshot plus the
deletions accumulated since the last notification flush.  In the Rust
code the staged state is a full `MailboxState`, but it is always
produced by `fetch_messages`, whose `next_state` is `None`; the nested
state is therefore represented by its snapshot fields. -/
structure NextMailboxState where
  next_state : MailboxSnapshot
  deletions : List ImapId
deriving DecidableEq, Repr

/-- `MailboxState` from the source: a snapshot plus the optional staged
transition. -/
structure MailboxState extends MailboxSnapshot where
  next_state : Option NextMailboxState
deriving DecidableEq, Repr

/-- Reinstall a snapshot as the session's current state
(`*current_state = next_state.next_state` in the source; the installed
state's own `next_state` is `None`). -/
def MailboxSnapshot.toState (s : MailboxSnapshot) : MailboxState :=
  { s with next_state := none }

/-- Untagged responses serialized by `write_mailbox_changes`:
`expunge::Response { is_qresync, ids }` and `Exists { total_messages }`. -/
inductive Response where
  | expunge (is_qresync : Bool) (ids : List Nat)
  | existsResp (total_messages : Nat)
deriving DecidableEq, Repr

/-- First binding of key `k` in an association list (`HashMap::get`). -/
def lookupKey {β : Type} (k : Nat) : List (Nat × β) → Option β
  | [] => none
  | (k', v) :: rest => if k' = k then some v else lookupKey k rest

/-- `AHashMap::insert`: replace any binding of `k` by `(k, v)`.  Hash
map iteration order is unspecified; this model appends the new binding. -/
def hmInsert {β : Type} (k : Nat) (v : β) (m : List (Nat × β)) : List (Nat × β) :=
  m.filter (fun p => p.1 != k) ++ [(k, v)]

/-- `AHashMap::remove`: drop the binding of `k`. -/
def hmRemove {β : Type} (k : Nat) (m : List (Nat × β)) : List (Nat × β) :=
  m.filter (fun p => p.1 != k)

/-- `BTreeMap::insert` on a key-sorted association list: place `(k, v)`
at its ordered position, replacing (and returning) the previous value
bound to `k` if any. -/
def btInsert {β : Type} (k : Nat) (v : β) : List (Nat × β) → List (Nat × β) × Option β
  | [] => ([(k, v)], none)
  | (k', v') :: rest =>
    if k < k' then ((k, v) :: (k', v') :: rest, none)
    else if k = k' then ((k, v) :: rest, some v')
    else
      let r := btInsert k v rest
      ((k', v') :: r.1, r.2)

/-- The `uid_map` loop of `fetch_messages` (lines 79–108), one message
at a time: find the message's membership record for this mailbox and
insert `uid ↦ message_id` into the ordered map (a duplicate uid
overwrites, with only a logged warning). -/
def uidMapLoop (mailbox_id : Nat) : List (Nat × List UidMailbox) → List (Nat × Nat) →
    List (Nat × Nat)
  | [], uid_map => uid_map
  | msg :: rest, uid_map =>
    uidMapLoop mailbox_id rest
      (match msg.2.find? (fun item => item.mailbox_id == mailbox_id) with
       | some item => (btInsert item.uid msg.1 uid_map).1
       | none => uid_map)

/-- The ordered `uid ↦ message_id` map built by `fetch_messages`. -/
def uidMapOf (mailbox_id : Nat) (msgs : List (Nat × List UidMailbox)) : List (Nat × Nat) :=
  uidMapLoop mailbox_id msgs []

/-- The seqnum-assignment loop of `fetch_messages` (lines 115–127):
walk the uid-ordered map with `seqnum` starting at 1, tracking
`uid_max` and building `id_to_imap` and `uid_to_id`. -/
def buildLoop : List (Nat × Nat) → Nat → Nat → List (Nat × ImapId) → List (Nat × Nat) →
    Nat × List (Nat × ImapId) × List (Nat × Nat)
  | [], _, uid_max, id_to_imap, uid_to_id => (uid_max, id_to_imap, uid_to_id)
  | (uid, message_id) :: rest, seqnum, uid_max, id_to_imap, uid_to_id =>
    buildLoop rest (seqnum + 1) (if uid > uid_max then uid else uid_max)
      (hmInsert message_id ⟨uid, seqnum⟩ id_to_imap)
      (hmInsert uid message_id uid_to_id)

/-- `fetch_messages` (lines 46–139).  The store reads (uid validity,
last change id, and the per-message `MailboxIds` lists keyed by message
id) are passed as arguments. -/
def fetch_messages (mailbox_id uid_validity : Nat) (modseq : Option Nat)
    (msgs : List (Nat × List UidMailbox)) : MailboxState :=
  let uid_map := uidMapOf mailbox_id msgs
  let r := buildLoop uid_map 1 0 [] []
  { uid_next := r.1 + 1
    uid_validity := uid_validity
    total_messages := r.2.1.length
    id_to_imap := r.2.1
    uid_to_id := r.2.2
    uid_max := r.1
    modseq := modseq
    next_state := none }

/-- The diff loop of `synchronize_messages` (lines 158–169): walk the
session's `id_to_imap`; entries whose uid survives in the new
snapshot's `uid_to_id` are kept, the rest are pushed onto the deletion
list and removed from the session's `uid_to_id`. -/
def syncLoop (new_uid_to_id : List (Nat × Nat)) :
    List (Nat × ImapId) → List (Nat × ImapId) → List ImapId → List (Nat × Nat) →
    List (Nat × ImapId) × List ImapId × List (Nat × Nat)
  | [], id_to_imap, deletions, uid_to_id => (id_to_imap, deletions, uid_to_id)
  | (id, imap_id) :: rest, id_to_imap, deletions, uid_to_id =>
    if (lookupKey imap_id.uid new_uid_to_id).isSome then
      syncLoop new_uid_to_id rest (hmInsert id imap_id id_to_imap) deletions uid_to_id
    else
      syncLoop new_uid_to_id rest id_to_imap (deletions ++ [imap_id])
        (hmRemove imap_id.uid uid_to_id)

/-- `synchronize_messages` (lines 141–186).  `store_modseq` is the
authoritative modseq read at entry; `new_state` is the snapshot
`fetch_messages` would return (only consulted when the modseqs differ).
Returns the updated session state and the function's return value. -/
def synchronize_messages (store_modseq : Option Nat) (new_state : MailboxState)
    (current : MailboxState) : MailboxState × Option Nat :=
  if current.modseq ≠ store_modseq then
    let deletions := match current.next_state with
      | some st => st.deletions
      | none => []
    let r := syncLoop new_state.uid_to_id current.id_to_imap [] deletions current.uid_to_id
    ({ current with
        id_to_imap := r.1
        uid_to_id := r.2.2
        modseq := new_state.modseq
        next_state := some ⟨new_state.toMailboxSnapshot, r.2.1⟩ }, store_modseq)
  else (current, store_modseq)

/-- `write_mailbox_changes` (lines 188–228): synchronize, then consume
the staged transition, emitting an `EXPUNGE` with the ascending sort of
the deletions' uids (QRESYNC) or seqnums, an `EXISTS` when an expunge
was emitted or `uid_max` grew (saturating subtraction), and installing
the staged snapshot.  Returns the final state, the response buffer and
the returned modseq. -/
def write_mailbox_changes (store_modseq : Option Nat) (new_state : MailboxState)
    (is_qresync : Bool) (current : MailboxState) :
    MailboxState × List Response × Option Nat :=
  let r := synchronize_messages store_modseq new_state current
  match r.1.next_state with
  | none => (r.1, [], r.2)
  | some ns =>
    let buf : List Response :=
      if ns.deletions.isEmpty then []
      else
        [Response.expunge is_qresync
          ((ns.deletions.map (fun id => if is_qresync then id.uid else id.seqnum)).insertionSort
            (· ≤ ·))]
    let buf2 : List Response :=
      if !buf.isEmpty || ns.next_state.uid_max - r.1.uid_max > 0 then
        buf ++ [Response.existsResp ns.next_state.total_messages]
      else buf
    (ns.next_state.toState, buf2, r.2)

/-- The per-element loop of `append_messages` (lines 352–364).
Mirrors the source exactly, including `uid_to_id.insert(id.uid, id.uid)`
(the uid, not the message id, is stored as the value) and `uid_max`
being overwritten by each element's uid in argument order. -/
def appendLoop : List ImapUidToId → MailboxState × Nat → MailboxState × Nat
  | [], acc => acc
  | id :: rest, acc =>
    let mb := acc.1
    let total := mb.total_messages + 1
    appendLoop rest
      ({ mb with
          total_messages := total
          uid_to_id := hmInsert id.uid id.uid mb.uid_to_id
          id_to_imap := hmInsert id.id ⟨id.uid, total⟩ mb.id_to_imap }, id.uid)

/-- `append_messages` (lines 348–369): when the argument modseq is
strictly greater than the recorded one, append the new entries (see
`appendLoop`) and set `uid_max`/`uid_next` from the loop's final uid.
Returns the state and `uid_validity`. -/
def append_messages (ids : List ImapUidToId) (modseq : Option Nat)
    (mailbox : MailboxState) : MailboxState × Nat :=
  if modseq.getD 0 > mailbox.modseq.getD 0 then
    let r := appendLoop ids (mailbox, 0)
    ({ r.1 with uid_max := r.2, uid_next := r.2 + 1 }, mailbox.uid_validity)
  else (mailbox, mailbox.uid_validity)

/-- Modelled from the spec: `imap_proto::protocol::Sequence` (the
imap-proto crate is not under `src/`).  A sequence is "an enumerable
number set over positive integers with `*` meaning max, a union/range
thereof, or a saved-search reference (`$`)"; `none` endpoints stand for
`*`. -/
inductive Sequence where
  | number (value : Nat)
  | range (start_ : Option Nat) (end_ : Option Nat)
  | list (items : List Sequence)
  | savedSearch
deriving Repr

mutual

/-- Modelled from the spec: whether the sequence is the saved-search
reference `$` (a union containing it counts as one). -/
def Sequence.is_saved_search : Sequence → Bool
  | .savedSearch => true
  | .list items => anySavedSearch items
  | _ => false

/-- Helper for `Sequence.is_saved_search` over a union's items. -/
def anySavedSearch : List Sequence → Bool
  | [] => false
  | s :: rest => s.is_saved_search || anySavedSearch rest

end

mutual

/-- Modelled from the spec: the elements denoted by a sequence given
the interpretation of `*` as `limit`, before the monotonic set
enumeration (so possibly unsorted and with repeats across unions).
A range's endpoints may come in either order. -/
def Sequence.expandRaw (limit : Nat) : Sequence → List Nat
  | .number value => [value]
  | .range s e =>
    let a := s.getD limit
    let b := e.getD limit
    List.range' (min a b) (max a b - min a b + 1)
  | .list items => expandRawList limit items
  | .savedSearch => []

/-- Helper for `Sequence.expandRaw` over a union's items. -/
def expandRawList (limit : Nat) : List Sequence → List Nat
  | [] => []
  | s :: rest => Sequence.expandRaw limit s ++ expandRawList limit rest

end

/-- Modelled from the spec: `expand(max) → iter<u32>`, "the concrete
monotonic enumeration" of the number set — ascending and without
duplicates. -/
def Sequence.expand (limit : Nat) (s : Sequence) : List Nat :=
  ((s.expandRaw limit).insertionSort (· ≤ ·)).dedup

/-- Modelled from the spec: `contains(n, max) → bool`, "whether `n`
lies in the resolved set given the interpretation of `*`". -/
def Sequence.contains (s : Sequence) (value limit : Nat) : Bool :=
  (s.expandRaw limit).contains value

/-- The saved-search loop of `sequence_to_ids` (lines 309–313): each
saved `ImapId` whose uid is still a key of the session's `uid_to_id` is
inserted, keyed by the looked-up message id, with the saved `ImapId`
itself as the value. -/
def savedToIdsLoop (uid_to_id : List (Nat × Nat)) :
    List ImapId → List (Nat × ImapId) → List (Nat × ImapId)
  | [], ids => ids
  | imap_id :: rest, ids =>
    savedToIdsLoop uid_to_id rest
      (match lookupKey imap_id.uid uid_to_id with
       | some id => hmInsert id imap_id ids
       | none => ids)

/-- `sequence_to_ids` (lines 274–317).  The session's saved search
(`get_saved_search()`) is passed as an argument; the error case is the
`NO No saved search found.` response. -/
def sequence_to_ids (sequence : Sequence) (is_uid : Bool)
    (saved : Option (List ImapId)) (state : MailboxState) :
    Except String (List (Nat × ImapId)) :=
  if !sequence.is_saved_search then
    if state.id_to_imap.isEmpty then .ok []
    else if is_uid then
      .ok (state.id_to_imap.foldl (fun ids p =>
        if sequence.contains p.2.uid state.uid_max then hmInsert p.1 p.2 ids else ids) [])
    else
      .ok (state.id_to_imap.foldl (fun ids p =>
        if sequence.contains p.2.seqnum state.total_messages then hmInsert p.1 p.2 ids
        else ids) [])
  else
    match saved with
    | none => .error "No saved search found."
    | some saved_ids => .ok (savedToIdsLoop state.uid_to_id saved_ids [])

/-- `sequence_expand_missing` (lines 319–346): collect the expanded
values missing from the current state (absent uid in uid mode, seqnum
above `total_messages` otherwise; for a saved search, saved entries
whose uid is gone), then sort ascending. -/
def sequence_expand_missing (sequence : Sequence) (is_uid : Bool)
    (saved : Option (List ImapId)) (state : MailboxState) : List Nat :=
  let deleted_ids : List Nat :=
    if !sequence.is_saved_search then
      if is_uid then
        (Sequence.expand state.uid_max sequence).filter
          (fun uid => !(lookupKey uid state.uid_to_id).isSome)
      else
        (Sequence.expand state.total_messages sequence).filter
          (fun seqnum => seqnum > state.total_messages)
    else
      match saved with
      | some saved_ids =>
        saved_ids.foldl (fun acc id =>
          if !(lookupKey id.uid state.uid_to_id).isSome then
            acc ++ [if is_uid then id.uid else id.seqnum]
          else acc) []
      | none => []
  deleted_ids.insertionSort (· ≤ ·)

/-- A sample empty mailbox state used by the witnesses. -/
def mbEmpty : MailboxState :=
  { uid_next := 1, uid_validity := 0, total_messages := 0, id_to_imap := [],
    uid_to_id := [], uid_max := 0, modseq := none, next_state := none }

/-- A sample one-message state (uid 5, message id 7, seqnum 1). -/
def mbOne : MailboxState :=
  { uid_next := 6, uid_validity := 0, total_messages := 1,
    id_to_imap := [(7, ⟨5, 1⟩)], uid_to_id := [(5, 7)], uid_max := 5,
    modseq := some 0, next_state := none }

/-- A sample state carrying an unconsumed pending transition. -/
def mbPend : MailboxState :=
  { mbOne with next_state := some ⟨mbEmpty.toMailboxSnapshot, [⟨2, 1⟩]⟩ }

/-! ### Association-list lemmas -/

theorem hmInsert_eq_append {β : Type} (k : Nat) (v : β) (m : List (Nat × β))
    (h : ∀ p ∈ m, p.1 ≠ k) : hmInsert k v m = m ++ [(k, v)] := by
  unfold hmInsert
  rw [List.filter_eq_self.mpr]
  intro p hp
  simpa using h p hp

/-! ### The synchronizer's diff loop -/

theorem syncLoop_deletions (nu : List (Nat × Nat)) (l : List (Nat × ImapId))
    (acc : List (Nat × ImapId)) (dels : List ImapId) (u2i : List (Nat × Nat)) :
    (syncLoop nu l acc dels u2i).2.1 =
      dels ++ (l.filter (fun p => !(lookupKey p.2.uid nu).isSome)).map Prod.snd := by
  induction l generalizing acc dels u2i with
  | nil => simp [syncLoop]
  | cons p rest ih =>
    obtain ⟨id, imap⟩ := p
    by_cases h : (lookupKey imap.uid nu).isSome = true
    · rw [syncLoop, if_pos h, ih, List.filter_cons]
      simp [h]
    · rw [syncLoop, if_neg h, ih, List.filter_cons]
      simp [h, List.append_assoc]

theorem syncLoop_fst (nu : List (Nat × Nat)) (l : List (Nat × ImapId))
    (acc : List (Nat × ImapId)) (dels : List ImapId) (u2i : List (Nat × Nat))
    (hnd : (l.map Prod.fst).Nodup)
    (hdisj : ∀ p ∈ l, ∀ q ∈ acc, q.1 ≠ p.1) :
    (syncLoop nu l acc dels u2i).1 =
      acc ++ l.filter (fun p => (lookupKey p.2.uid nu).isSome) := by
  induction l generalizing acc dels u2i with
  | nil => simp [syncLoop]
  | cons p rest ih =>
    obtain ⟨id, imap⟩ := p
    simp only [List.map_cons, List.nodup_cons] at hnd
    have hfresh : ∀ p ∈ acc, p.1 ≠ id :=
      fun p hp => hdisj (id, imap) (List.mem_cons_self _ _) p hp
    by_cases h : (lookupKey imap.uid nu).isSome = true
    · rw [syncLoop, if_pos h,
        ih _ _ _ hnd.2
          (by
            intro q hq r hr
            rw [hmInsert_eq_append id imap acc hfresh] at hr
            rcases List.mem_append.mp hr with hr' | hr'
            · exact hdisj q (List.mem_cons_of_mem _ hq) r hr'
            · have hre : r = (id, imap) := by simpa using hr'
              subst hre
              show id ≠ q.1
              intro hcon
              exact hnd.1 (by rw [hcon]; exact List.mem_map_of_mem Prod.fst hq)),
        hmInsert_eq_append id imap acc hfresh, List.filter_cons, List.append_assoc]
      simp [h]
    · rw [syncLoop, if_neg h,
        ih _ _ _ hnd.2 (fun q hq r hr => hdisj q (List.mem_cons_of_mem _ hq) r hr),
        List.filter_cons]
      simp [h]

/-! ### Claims on `synchronize_messages` -/

/-- C1: when the store modseq differs, the pre-emission `id_to_imap`
after `synchronize_messages` is exactly the survivors of the old map —
the old entries whose uid is a key of the fresh snapshot's `uid_to_id`,
each under its old `ImapId` — and the fresh snapshot (carrying any new
uids) is only staged in `next_state`. -/
theorem claim_C1 (sm : Option Nat) (N cur : MailboxState)
    (h : cur.modseq ≠ sm) (hnd : (cur.id_to_imap.map Prod.fst).Nodup) :
    (synchronize_messages sm N cur).1.id_to_imap =
      cur.id_to_imap.filter (fun p => (lookupKey p.2.uid N.uid_to_id).isSome) ∧
    ((synchronize_messages sm N cur).1.next_state).map NextMailboxState.next_state =
      some N.toMailboxSnapshot := by
  unfold synchronize_messages
  rw [if_pos h]
  refine ⟨?_, rfl⟩
  simpa using syncLoop_fst N.uid_to_id cur.id_to_imap [] _ cur.uid_to_id hnd (by simp)

theorem claim_C1_witness :
    (mbOne.modseq ≠ some 1 ∧ (mbOne.id_to_imap.map Prod.fst).Nodup) ∧
    ((synchronize_messages (some 1) (fetch_messages 1 0 (some 1) []) mbOne).1.id_to_imap =
        mbOne.id_to_imap.filter
          (fun p => (lookupKey p.2.uid (fetch_messages 1 0 (some 1) []).uid_to_id).isSome) ∧
      ((synchronize_messages (some 1) (fetch_messages 1 0 (some 1) []) mbOne).1.next_state).map
          NextMailboxState.next_state =
        some (fetch_messages 1 0 (some 1) []).toMailboxSnapshot) :=
  ⟨⟨by decide, by decide⟩,
    claim_C1 (some 1) (fetch_messages 1 0 (some 1) []) mbOne (by decide) (by decide)⟩

/-- C2: when a prior transition with deletions `D0` is still pending,
the transition staged by `synchronize_messages` carries `D0` extended
with every current entry whose uid is absent from the new snapshot —
no pending deletion is dropped. -/
theorem claim_C2 (sm : Option Nat) (N cur : MailboxState) (ns : NextMailboxState)
    (h : cur.modseq ≠ sm) (hns : cur.next_state = some ns) :
    ((synchronize_messages sm N cur).1.next_state).map NextMailboxState.deletions =
      some (ns.deletions ++
        (cur.id_to_imap.filter
          (fun p => !(lookupKey p.2.uid N.uid_to_id).isSome)).map Prod.snd) := by
  unfold synchronize_messages
  rw [if_pos h, hns]
  simpa using syncLoop_deletions N.uid_to_id cur.id_to_imap [] ns.deletions cur.uid_to_id

theorem claim_C2_witness :
    (mbPend.modseq ≠ some 1 ∧ mbPend.next_state = some ⟨mbEmpty.toMailboxSnapshot, [⟨2, 1⟩]⟩) ∧
    ((synchronize_messages (some 1) (fetch_messages 1 0 (some 1) []) mbPend).1.next_state).map
        NextMailboxState.deletions =
      some ((⟨mbEmpty.toMailboxSnapshot, [⟨2, 1⟩]⟩ : NextMailboxState).deletions ++
        (mbPend.id_to_imap.filter
          (fun p =>
            !(lookupKey p.2.uid (fetch_messages 1 0 (some 1) []).uid_to_id).isSome)).map
          Prod.snd) :=
  ⟨⟨by decide, by decide⟩,
    claim_C2 (some 1) (fetch_messages 1 0 (some 1) []) mbPend _ (by decide) (by decide)⟩

/-- C8: when the session's recorded modseq equals the store's, the
synchronizer is a no-op: the state is returned untouched (no staged
transition added) along with that modseq. -/
theorem claim_C8 (sm : Option Nat) (N cur : MailboxState) (h : cur.modseq = sm) :
    synchronize_messages sm N cur = (cur, sm) := by
  unfold synchronize_messages
  rw [if_neg (by simp [h])]

theorem claim_C8_witness :
    mbOne.modseq = some 0 ∧
    synchronize_messages (some 0) mbEmpty mbOne = (mbOne, some 0) :=
  ⟨by decide, claim_C8 (some 0) mbEmpty mbOne (by decide)⟩

theorem synchronize_uid_max (sm : Option Nat) (N cur : MailboxState) :
    (synchronize_messages sm N cur).1.uid_max = cur.uid_max := by
  unfold synchronize_messages
  by_cases h : cur.modseq ≠ sm
  · rw [if_pos h]
  · rw [if_neg h]

/-! ### Claims on `write_mailbox_changes` -/

/-- C3: when the consumed transition has deletions, the first emitted
response is an `EXPUNGE` whose id list is the ascending sort of the
deletions' uids (QRESYNC) or seqnums; an `EXISTS` carrying the new
snapshot's `total_messages` is emitted iff an expunge was emitted or
the new snapshot's `uid_max` exceeds the old state's. -/
theorem claim_C3 (sm : Option Nat) (f : MailboxState) (q : Bool) (cur : MailboxState)
    (ns : NextMailboxState)
    (h : (synchronize_messages sm f cur).1.next_state = some ns) :
    (ns.deletions ≠ [] →
      ∃ ids, (write_mailbox_changes sm f q cur).2.1.head? = some (Response.expunge q ids) ∧
        ids.Perm (ns.deletions.map (fun d => if q then d.uid else d.seqnum)) ∧
        ids.Sorted (· ≤ ·)) ∧
    (Response.existsResp ns.next_state.total_messages ∈ (write_mailbox_changes sm f q cur).2.1 ↔
      (ns.deletions ≠ [] ∨ cur.uid_max < ns.next_state.uid_max)) := by
  have humax := synchronize_uid_max sm f cur
  simp only [write_mailbox_changes]
  split
  · next heq => rw [h] at heq; cases heq
  · next ns' heq =>
      rw [h] at heq
      injection heq with heq'
      subst heq'
      by_cases hd : ns.deletions.isEmpty = true
      · have hd' : ns.deletions = [] := List.isEmpty_iff.mp hd
        refine ⟨fun hcon => absurd hd' hcon, ?_⟩
        rw [if_pos hd]
        by_cases hg : ns.next_state.uid_max - (synchronize_messages sm f cur).1.uid_max > 0
        · rw [if_pos (by simpa using hg)]
          rw [humax] at hg
          simp [hd']
          omega
        · rw [if_neg (by simpa using hg)]
          rw [humax] at hg
          simp [hd']
          omega
      · have hd' : ns.deletions ≠ [] := fun hcon => hd (by simp [hcon])
        rw [if_neg hd]
        rw [if_pos (by simp)]
        constructor
        · intro _
          exact ⟨_, rfl, List.perm_insertionSort _ _, List.sorted_insertionSort _ _⟩
        · simp [hd']

/-- Witness state for C3: one message (uid 5) deleted by the fresh
snapshot, so the staged transition has a nonempty deletion list. -/
def mbFetchedEmpty : MailboxState := fetch_messages 1 0 (some 1) []

theorem claim_C3_witness :
    ((synchronize_messages (some 1) mbFetchedEmpty mbOne).1.next_state =
      some ⟨mbFetchedEmpty.toMailboxSnapshot, [⟨5, 1⟩]⟩) ∧
    ((((⟨mbFetchedEmpty.toMailboxSnapshot, [⟨5, 1⟩]⟩ : NextMailboxState).deletions ≠ []) →
      ∃ ids, (write_mailbox_changes (some 1) mbFetchedEmpty true mbOne).2.1.head? =
          some (Response.expunge true ids) ∧
        ids.Perm ((⟨mbFetchedEmpty.toMailboxSnapshot, [⟨5, 1⟩]⟩ : NextMailboxState).deletions.map
          (fun d => if true then d.uid else d.seqnum)) ∧
        ids.Sorted (· ≤ ·)) ∧
    (Response.existsResp
        (⟨mbFetchedEmpty.toMailboxSnapshot, [⟨5, 1⟩]⟩ : NextMailboxState).next_state.total_messages ∈
        (write_mailbox_changes (some 1) mbFetchedEmpty true mbOne).2.1 ↔
      ((⟨mbFetchedEmpty.toMailboxSnapshot, [⟨5, 1⟩]⟩ : NextMailboxState).deletions ≠ [] ∨
        mbOne.uid_max <
          (⟨mbFetchedEmpty.toMailboxSnapshot, [⟨5, 1⟩]⟩ : NextMailboxState).next_state.uid_max))) :=
  ⟨by decide, claim_C3 (some 1) mbFetchedEmpty true mbOne _ (by decide)⟩

/-! ### Claims on `append_messages` -/

theorem appendLoop_snd (ids : List ImapUidToId) (acc : MailboxState × Nat) :
    (appendLoop ids acc).2 = ((ids.getLast?).map ImapUidToId.uid).getD acc.2 := by
  induction ids generalizing acc with
  | nil => simp [appendLoop]
  | cons id rest ih =>
    cases rest with
    | nil => simp [appendLoop]
    | cons id2 rest2 =>
      have hs : (id2 :: rest2).getLast?.isSome := by simp [List.getLast?_isSome]
      obtain ⟨x, hx⟩ := Option.isSome_iff_exists.mp hs
      rw [appendLoop, ih, List.getLast?_cons_cons, hx]
      simp

/-- C10: with a strictly greater modseq, `append_messages` sets
`uid_max` to the uid of the *last* argument (not the maximum) and
`uid_next` to that plus one; an empty argument list resets `uid_max`
to 0 and `uid_next` to 1 while leaving `total_messages` unchanged. -/
theorem claim_C10 (ids : List ImapUidToId) (modseq : Option Nat) (mb : MailboxState)
    (h : mb.modseq.getD 0 < modseq.getD 0) :
    (append_messages ids modseq mb).1.uid_max = ((ids.getLast?).map ImapUidToId.uid).getD 0 ∧
    (append_messages ids modseq mb).1.uid_next = (append_messages ids modseq mb).1.uid_max + 1 ∧
    (ids = [] →
      (append_messages ids modseq mb).1.uid_max = 0 ∧
      (append_messages ids modseq mb).1.uid_next = 1 ∧
      (append_messages ids modseq mb).1.total_messages = mb.total_messages) := by
  unfold append_messages
  rw [if_pos h]
  refine ⟨by simpa using appendLoop_snd ids (mb, 0), rfl, ?_⟩
  rintro rfl
  simp [appendLoop]

theorem claim_C10_witness :
    (mbEmpty.modseq.getD 0 < (some 1 : Option Nat).getD 0) ∧
    ((append_messages [⟨5, 7⟩, ⟨3, 8⟩] (some 1) mbEmpty).1.uid_max =
        ((([⟨5, 7⟩, ⟨3, 8⟩] : List ImapUidToId).getLast?).map ImapUidToId.uid).getD 0 ∧
      (append_messages [⟨5, 7⟩, ⟨3, 8⟩] (some 1) mbEmpty).1.uid_next =
        (append_messages [⟨5, 7⟩, ⟨3, 8⟩] (some 1) mbEmpty).1.uid_max + 1 ∧
      (([⟨5, 7⟩, ⟨3, 8⟩] : List ImapUidToId) = [] →
        (append_messages [⟨5, 7⟩, ⟨3, 8⟩] (some 1) mbEmpty).1.uid_max = 0 ∧
        (append_messages [⟨5, 7⟩, ⟨3, 8⟩] (some 1) mbEmpty).1.uid_next = 1 ∧
        (append_messages [⟨5, 7⟩, ⟨3, 8⟩] (some 1) mbEmpty).1.total_messages =
          mbEmpty.total_messages)) :=
  ⟨by decide, claim_C10 [⟨5, 7⟩, ⟨3, 8⟩] (some 1) mbEmpty (by decide)⟩

/-! ### Ordered-map lemmas for the materializer -/

theorem btInsert_keys_subset {β : Type} (k : Nat) (v : β) (m : List (Nat × β)) :
    ∀ x ∈ (btInsert k v m).1.map Prod.fst, x = k ∨ x ∈ m.map Prod.fst := by
  induction m with
  | nil => simp [btInsert]
  | cons p rest ih =>
    obtain ⟨k', v'⟩ := p
    intro x hx
    rw [btInsert] at hx
    by_cases h1 : k < k'
    · rw [if_pos h1] at hx
      simp only [List.map_cons, List.mem_cons] at hx ⊢
      tauto
    · rw [if_neg h1] at hx
      by_cases h2 : k = k'
      · rw [if_pos h2] at hx
        simp only [List.map_cons, List.mem_cons] at hx ⊢
        tauto
      · rw [if_neg h2] at hx
        simp only [List.map_cons, List.mem_cons] at hx ⊢
        rcases hx with hx | hx
        · tauto
        · rcases ih x hx with h | h <;> tauto

theorem btInsert_values_subset {β : Type} (k : Nat) (v : β) (m : List (Nat × β)) :
    ∀ x ∈ (btInsert k v m).1.map Prod.snd, x = v ∨ x ∈ m.map Prod.snd := by
  induction m with
  | nil => simp [btInsert]
  | cons p rest ih =>
    obtain ⟨k', v'⟩ := p
    intro x hx
    rw [btInsert] at hx
    by_cases h1 : k < k'
    · rw [if_pos h1] at hx
      simp only [List.map_cons, List.mem_cons] at hx ⊢
      tauto
    · rw [if_neg h1] at hx
      by_cases h2 : k = k'
      · rw [if_pos h2] at hx
        simp only [List.map_cons, List.mem_cons] at hx ⊢
        tauto
      · rw [if_neg h2] at hx
        simp only [List.map_cons, List.mem_cons] at hx ⊢
        rcases hx with hx | hx
        · tauto
        · rcases ih x hx with h | h <;> tauto

theorem btInsert_sorted {β : Type} (k : Nat) (v : β) (m : List (Nat × β))
    (h : (m.map Prod.fst).Sorted (· < ·)) :
    ((btInsert k v m).1.map Prod.fst).Sorted (· < ·) := by
  induction m with
  | nil => simp [btInsert]
  | cons p rest ih =>
    obtain ⟨k', v'⟩ := p
    simp only [List.map_cons, List.sorted_cons] at h
    rw [btInsert]
    by_cases h1 : k < k'
    · rw [if_pos h1]
      simp only [List.map_cons, List.sorted_cons]
      refine ⟨?_, h.1, h.2⟩
      intro b hb
      simp only [List.map_cons, List.mem_cons] at hb
      rcases hb with rfl | hb
      · exact h1
      · exact lt_trans h1 (h.1 b hb)
    · rw [if_neg h1]
      by_cases h2 : k = k'
      · rw [if_pos h2]
        simp only [List.map_cons, List.sorted_cons]
        exact ⟨fun b hb => h2 ▸ h.1 b hb, h.2⟩
      · rw [if_neg h2]
        simp only [List.map_cons, List.sorted_cons]
        refine ⟨?_, ih h.2⟩
        intro b hb
        rcases btInsert_keys_subset k v rest b hb with rfl | hb'
        · omega
        · exact h.1 b hb'

theorem btInsert_values_nodup {β : Type} [DecidableEq β] (k : Nat) (v : β)
    (m : List (Nat × β)) (hnd : (m.map Prod.snd).Nodup) (hv : v ∉ m.map Prod.snd) :
    ((btInsert k v m).1.map Prod.snd).Nodup := by
  induction m with
  | nil => simp [btInsert]
  | cons p rest ih =>
    obtain ⟨k', v'⟩ := p
    simp only [List.map_cons, List.nodup_cons, List.mem_cons] at hnd hv
    push_neg at hv
    rw [btInsert]
    by_cases h1 : k < k'
    · rw [if_pos h1]
      simp only [List.map_cons, List.nodup_cons, List.mem_cons]
      exact ⟨by tauto, hnd.1, hnd.2⟩
    · rw [if_neg h1]
      by_cases h2 : k = k'
      · rw [if_pos h2]
        simp only [List.map_cons, List.nodup_cons]
        exact ⟨hv.2, hnd.2⟩
      · rw [if_neg h2]
        simp only [List.map_cons, List.nodup_cons]
        refine ⟨?_, ih hnd.2 hv.2⟩
        intro hmem
        rcases btInsert_values_subset k v rest v' hmem with rfl | h
        · exact hv.1 rfl
        · exact hnd.1 h

theorem btInsert_lookup {β : Type} (k : Nat) (v : β) (u : Nat) (m : List (Nat × β))
    (h : (m.map Prod.fst).Sorted (· < ·)) :
    lookupKey u (btInsert k v m).1 = if k = u then some v else lookupKey u m := by
  induction m with
  | nil => simp [btInsert, lookupKey]
  | cons p rest ih =>
    obtain ⟨k', v'⟩ := p
    simp only [List.map_cons, List.sorted_cons] at h
    rw [btInsert]
    by_cases h1 : k < k'
    · rw [if_pos h1]
      rfl
    · rw [if_neg h1]
      by_cases h2 : k = k'
      · rw [if_pos h2]
        by_cases hu : k = u
        · simp [lookupKey, hu]
        · simp [lookupKey, hu, show ¬k' = u from fun hc => hu (h2.trans hc)]
      · rw [if_neg h2]
        rw [lookupKey, ih h.2]
        by_cases hu : k' = u
        · have hku : ¬k = u := fun hc => h2 (hc.trans hu.symm)
          simp [lookupKey, hu, hku]
        · by_cases hku : k = u
          · simp [hu, hku]
          · simp [lookupKey, hu, hku]

/-! ### The `uid_map` fold of the materializer -/

theorem uidMapLoop_sorted (mb : Nat) (msgs : List (Nat × List UidMailbox))
    (m : List (Nat × Nat)) (h : (m.map Prod.fst).Sorted (· < ·)) :
    ((uidMapLoop mb msgs m).map Prod.fst).Sorted (· < ·) := by
  induction msgs generalizing m with
  | nil => simpa [uidMapLoop] using h
  | cons msg rest ih =>
    rw [uidMapLoop]
    cases hf : msg.2.find? (fun item => item.mailbox_id == mb) with
    | none => exact ih _ h
    | some item => exact ih _ (btInsert_sorted _ _ _ h)

theorem uidMapLoop_values (mb : Nat) (msgs : List (Nat × List UidMailbox))
    (m : List (Nat × Nat))
    (hsorted : (m.map Prod.fst).Sorted (· < ·))
    (hnd : (m.map Prod.snd).Nodup)
    (hdisj : ∀ x ∈ m.map Prod.snd, x ∉ msgs.map Prod.fst)
    (hids : (msgs.map Prod.fst).Nodup) :
    ((uidMapLoop mb msgs m).map Prod.snd).Nodup := by
  induction msgs generalizing m with
  | nil => simpa [uidMapLoop] using hnd
  | cons msg rest ih =>
    simp only [List.map_cons, List.nodup_cons] at hids
    rw [uidMapLoop]
    cases hf : msg.2.find? (fun item => item.mailbox_id == mb) with
    | none =>
      refine ih _ hsorted hnd ?_ hids.2
      intro x hx hmem
      exact hdisj x hx (List.mem_cons_of_mem _ hmem)
    | some item =>
      refine ih _ (btInsert_sorted _ _ _ hsorted) ?_ ?_ hids.2
      · refine btInsert_values_nodup _ _ _ hnd ?_
        intro hmem
        exact hdisj msg.1 hmem (List.mem_cons_self _ _)
      · intro x hx hmem
        rcases btInsert_values_subset _ _ _ x hx with rfl | hx'
        · exact hids.1 hmem
        · exact hdisj x hx' (List.mem_cons_of_mem _ hmem)

/-- The messages that would write uid `u` for this mailbox, in
encounter order (the `uid_map.insert(item.uid, message_id)` calls with
`item.uid = u`). -/
def contributors (mailbox_id u : Nat) (msgs : List (Nat × List UidMailbox)) : List Nat :=
  msgs.filterMap (fun msg =>
    match msg.2.find? (fun item => item.mailbox_id == mailbox_id) with
    | some item => if item.uid = u then some msg.1 else none
    | none => none)

theorem uidMapLoop_lookup (mb u : Nat) (msgs : List (Nat × List UidMailbox))
    (m : List (Nat × Nat)) (hs : (m.map Prod.fst).Sorted (· < ·)) :
    lookupKey u (uidMapLoop mb msgs m) =
      ((contributors mb u msgs).getLast?).or (lookupKey u m) := by
  induction msgs generalizing m with
  | nil => simp [uidMapLoop, contributors]
  | cons msg rest ih =>
    rw [uidMapLoop]
    cases hf : msg.2.find? (fun item => item.mailbox_id == mb) with
    | none =>
      rw [ih _ hs]
      have hc : contributors mb u (msg :: rest) = contributors mb u rest := by
        simp [contributors, hf]
      rw [hc]
    | some item =>
      rw [ih _ (btInsert_sorted _ _ _ hs), btInsert_lookup _ _ _ _ hs]
      by_cases hu : item.uid = u
      · rw [if_pos hu]
        have hc : contributors mb u (msg :: rest) = msg.1 :: contributors mb u rest := by
          simp [contributors, hf, hu]
        rw [hc]
        cases hcr : contributors mb u rest with
        | nil => simp
        | cons a l =>
          rw [List.getLast?_cons_cons]
          obtain ⟨x, hx⟩ := Option.isSome_iff_exists.mp
            (show (a :: l).getLast?.isSome by simp [List.getLast?_isSome])
          rw [hx]
          simp
      · rw [if_neg hu]
        have hc : contributors mb u (msg :: rest) = contributors mb u rest := by
          simp [contributors, hf, hu]
        rw [hc]

/-! ### The seqnum-assignment loop of the materializer -/

/-- The list built by the seqnum-assignment loop when no key is ever
overwritten: the uid-ordered entries with consecutive seqnums. -/
def buildExpected : List (Nat × Nat) → Nat → List (Nat × ImapId)
  | [], _ => []
  | (uid, message_id) :: rest, seqnum =>
    (message_id, ⟨uid, seqnum⟩) :: buildExpected rest (seqnum + 1)

theorem buildExpected_length (l : List (Nat × Nat)) (s : Nat) :
    (buildExpected l s).length = l.length := by
  induction l generalizing s with
  | nil => rfl
  | cons p rest ih =>
    obtain ⟨uid, mid⟩ := p
    simp [buildExpected, ih]

theorem buildExpected_map_seqnum (l : List (Nat × Nat)) (s : Nat) :
    (buildExpected l s).map (fun p => p.2.seqnum) = List.range' s l.length := by
  induction l generalizing s with
  | nil => rfl
  | cons p rest ih =>
    obtain ⟨uid, mid⟩ := p
    simp [buildExpected, ih, List.range'_succ]

theorem buildExpected_map_uid (l : List (Nat × Nat)) (s : Nat) :
    (buildExpected l s).map (fun p => p.2.uid) = l.map Prod.fst := by
  induction l generalizing s with
  | nil => rfl
  | cons p rest ih =>
    obtain ⟨uid, mid⟩ := p
    simp [buildExpected, ih]

theorem buildLoop_i2i (l : List (Nat × Nat)) (s m : Nat) (i2i : List (Nat × ImapId))
    (u2i : List (Nat × Nat))
    (hnd : (l.map Prod.snd).Nodup)
    (hdisj : ∀ p ∈ l, ∀ q ∈ i2i, q.1 ≠ p.2) :
    (buildLoop l s m i2i u2i).2.1 = i2i ++ buildExpected l s := by
  induction l generalizing s m i2i u2i with
  | nil => simp [buildLoop, buildExpected]
  | cons p rest ih =>
    obtain ⟨uid, mid⟩ := p
    simp only [List.map_cons, List.nodup_cons] at hnd
    have hfresh : ∀ q ∈ i2i, q.1 ≠ mid :=
      fun q hq => hdisj (uid, mid) (List.mem_cons_self _ _) q hq
    rw [buildLoop,
      ih _ _ _ _ hnd.2
        (by
          intro p' hp' q hq
          rw [hmInsert_eq_append mid ⟨uid, s⟩ i2i hfresh] at hq
          rcases List.mem_append.mp hq with hq' | hq'
          · exact hdisj p' (List.mem_cons_of_mem _ hp') q hq'
          · have hqe : q = (mid, ⟨uid, s⟩) := by simpa using hq'
            subst hqe
            show mid ≠ p'.2
            intro hcon
            exact hnd.1 (by rw [hcon]; exact List.mem_map_of_mem Prod.snd hp')),
      hmInsert_eq_append mid ⟨uid, s⟩ i2i hfresh, buildExpected, List.append_assoc]
    rfl

theorem buildLoop_u2i (l : List (Nat × Nat)) (s m : Nat) (i2i : List (Nat × ImapId))
    (u2i : List (Nat × Nat))
    (hnd : (l.map Prod.fst).Nodup)
    (hdisj : ∀ p ∈ l, ∀ q ∈ u2i, q.1 ≠ p.1) :
    (buildLoop l s m i2i u2i).2.2 = u2i ++ l := by
  induction l generalizing s m i2i u2i with
  | nil => simp [buildLoop]
  | cons p rest ih =>
    obtain ⟨uid, mid⟩ := p
    simp only [List.map_cons, List.nodup_cons] at hnd
    have hfresh : ∀ q ∈ u2i, q.1 ≠ uid :=
      fun q hq => hdisj (uid, mid) (List.mem_cons_self _ _) q hq
    rw [buildLoop,
      ih _ _ _ _ hnd.2
        (by
          intro p' hp' q hq
          rw [hmInsert_eq_append uid mid u2i hfresh] at hq
          rcases List.mem_append.mp hq with hq' | hq'
          · exact hdisj p' (List.mem_cons_of_mem _ hp') q hq'
          · have hqe : q = (uid, mid) := by simpa using hq'
            subst hqe
            show uid ≠ p'.1
            intro hcon
            exact hnd.1 (by rw [hcon]; exact List.mem_map_of_mem Prod.fst hp')),
      hmInsert_eq_append uid mid u2i hfresh, List.append_assoc]
    rfl

/-! ### Snapshot structure delivered by `fetch_messages` -/

theorem fetch_uid_to_id (mb uv : Nat) (ms : Option Nat)
    (msgs : List (Nat × List UidMailbox)) :
    (fetch_messages mb uv ms msgs).uid_to_id = uidMapOf mb msgs := by
  have hs : ((uidMapOf mb msgs).map Prod.fst).Sorted (· < ·) :=
    uidMapLoop_sorted mb msgs [] (by simp)
  simp only [fetch_messages]
  simpa using buildLoop_u2i (uidMapOf mb msgs) 1 0 [] [] hs.nodup (by simp)

theorem fetch_id_to_imap (mb uv : Nat) (ms : Option Nat)
    (msgs : List (Nat × List UidMailbox)) (h : (msgs.map Prod.fst).Nodup) :
    (fetch_messages mb uv ms msgs).id_to_imap = buildExpected (uidMapOf mb msgs) 1 := by
  have hv : ((uidMapOf mb msgs).map Prod.snd).Nodup :=
    uidMapLoop_values mb msgs [] (by simp) (by simp) (by simp) h
  simp only [fetch_messages]
  simpa using buildLoop_i2i (uidMapOf mb msgs) 1 0 [] [] hv (by simp)

/-- C7: on distinct message ids (they come from a membership bitmap),
the snapshot built by `fetch_messages` lists seqnums `1..=total_messages`
when `id_to_imap` is read in ascending-uid order, and `uid_next` is
`uid_max + 1`, with `uid_max = 0` for an empty mailbox. -/
theorem claim_C7 (mb uv : Nat) (ms : Option Nat) (msgs : List (Nat × List UidMailbox))
    (h : (msgs.map Prod.fst).Nodup) :
    ((fetch_messages mb uv ms msgs).id_to_imap.insertionSort
        (fun a b => a.2.uid ≤ b.2.uid)).map (fun p => p.2.seqnum) =
      List.range' 1 (fetch_messages mb uv ms msgs).total_messages ∧
    (fetch_messages mb uv ms msgs).uid_next = (fetch_messages mb uv ms msgs).uid_max + 1 ∧
    ((fetch_messages mb uv ms msgs).total_messages = 0 →
      (fetch_messages mb uv ms msgs).uid_max = 0) := by
  have hs : ((uidMapOf mb msgs).map Prod.fst).Sorted (· < ·) :=
    uidMapLoop_sorted mb msgs [] (by simp)
  have hi2i := fetch_id_to_imap mb uv ms msgs h
  have htot : (fetch_messages mb uv ms msgs).total_messages = (uidMapOf mb msgs).length := by
    show (fetch_messages mb uv ms msgs).id_to_imap.length = _
    rw [hi2i, buildExpected_length]
  have hsorted : (buildExpected (uidMapOf mb msgs) 1).Sorted
      (fun a b => a.2.uid ≤ b.2.uid) := by
    have hmap : (buildExpected (uidMapOf mb msgs) 1).map (fun p => p.2.uid) =
        (uidMapOf mb msgs).map Prod.fst := buildExpected_map_uid _ _
    rw [← hmap] at hs
    exact (List.pairwise_map.mp hs).imp (fun hab => le_of_lt hab)
  refine ⟨?_, rfl, ?_⟩
  · rw [hi2i, hsorted.insertionSort_eq, buildExpected_map_seqnum, htot]
  · intro h0
    have hl : uidMapOf mb msgs = [] := by
      rw [htot] at h0
      exact List.length_eq_zero.mp h0
    show (buildLoop (uidMapOf mb msgs) 1 0 [] []).1 = 0
    rw [hl]
    rfl

theorem claim_C7_witness :
    (([(10, [{ mailbox_id := 1, uid := 3 }]), (20, [{ mailbox_id := 1, uid := 1 }])] :
        List (Nat × List UidMailbox)).map Prod.fst).Nodup ∧
    (((fetch_messages 1 0 (some 2)
          [(10, [{ mailbox_id := 1, uid := 3 }]),
            (20, [{ mailbox_id := 1, uid := 1 }])]).id_to_imap.insertionSort
        (fun a b => a.2.uid ≤ b.2.uid)).map (fun p => p.2.seqnum) =
      List.range' 1 (fetch_messages 1 0 (some 2)
          [(10, [{ mailbox_id := 1, uid := 3 }]),
            (20, [{ mailbox_id := 1, uid := 1 }])]).total_messages ∧
    (fetch_messages 1 0 (some 2)
        [(10, [{ mailbox_id := 1, uid := 3 }]),
          (20, [{ mailbox_id := 1, uid := 1 }])]).uid_next =
      (fetch_messages 1 0 (some 2)
        [(10, [{ mailbox_id := 1, uid := 3 }]),
          (20, [{ mailbox_id := 1, uid := 1 }])]).uid_max + 1 ∧
    ((fetch_messages 1 0 (some 2)
        [(10, [{ mailbox_id := 1, uid := 3 }]),
          (20, [{ mailbox_id := 1, uid := 1 }])]).total_messages = 0 →
      (fetch_messages 1 0 (some 2)
        [(10, [{ mailbox_id := 1, uid := 3 }]),
          (20, [{ mailbox_id := 1, uid := 1 }])]).uid_max = 0)) :=
  ⟨by decide,
    claim_C7 1 0 (some 2)
      [(10, [{ mailbox_id := 1, uid := 3 }]), (20, [{ mailbox_id := 1, uid := 1 }])]
      (by decide)⟩

/-- C4 (amended): the message kept under a duplicated uid is the
*last*-encountered contributor, not the first: the snapshot's
`uid_to_id` maps each uid to the last message that wrote it. -/
theorem claim_C4 (mb uv : Nat) (ms : Option Nat) (msgs : List (Nat × List UidMailbox))
    (u : Nat) :
    lookupKey u (fetch_messages mb uv ms msgs).uid_to_id =
      (contributors mb u msgs).getLast? := by
  rw [fetch_uid_to_id]
  have h := uidMapLoop_lookup mb u msgs [] (by simp)
  simpa [uidMapOf, lookupKey] using h

/-- C4 counterexample: two distinct messages (ids 10 then 20) carry
uid 5 for mailbox 1; the snapshot keeps message 20 — the second
(last-encountered) one — under uid 5, not the first as claimed. -/
theorem claim_C4_counterexample :
    lookupKey 5 (fetch_messages 1 0 none
        [(10, [{ mailbox_id := 1, uid := 5 }]),
          (20, [{ mailbox_id := 1, uid := 5 }])]).uid_to_id = some 20 ∧
    lookupKey 5 (fetch_messages 1 0 none
        [(10, [{ mailbox_id := 1, uid := 5 }]),
          (20, [{ mailbox_id := 1, uid := 5 }])]).uid_to_id ≠ some 10 := by
  decide

/-- C5 (code bug): appending `{uid := 5, id := 7}` to an empty mailbox
records message 7 at uid 5 in `id_to_imap`, but `uid_to_id` gets the
binding `5 ↦ 5` — the uid, not the message id — so the two maps are
not mutual inverses on the uid coordinate afterwards. -/
theorem claim_C5 :
    (append_messages [⟨5, 7⟩] (some 1) mbEmpty).1.id_to_imap = [(7, ⟨5, 1⟩)] ∧
    (append_messages [⟨5, 7⟩] (some 1) mbEmpty).1.uid_to_id = [(5, 5)] ∧
    ¬(lookupKey 5 (append_messages [⟨5, 7⟩] (some 1) mbEmpty).1.uid_to_id = some 7) := by
  decide

/-! ### Claims on the sequence resolver -/

theorem savedToIdsLoop_eq (u2i : List (Nat × Nat)) (L : List ImapId)
    (acc : List (Nat × ImapId))
    (hinj : ∀ u1 u2 i, lookupKey u1 u2i = some i → lookupKey u2 u2i = some i → u1 = u2)
    (hL : (L.map ImapId.uid).Nodup)
    (hacc : ∀ q ∈ acc, ∀ imap ∈ L, ∀ i, lookupKey imap.uid u2i = some i → q.1 ≠ i) :
    savedToIdsLoop u2i L acc =
      acc ++ L.filterMap (fun imap => (lookupKey imap.uid u2i).map (fun i => (i, imap))) := by
  induction L generalizing acc with
  | nil => simp [savedToIdsLoop]
  | cons imap rest ih =>
    simp only [List.map_cons, List.nodup_cons] at hL
    cases hf : lookupKey imap.uid u2i with
    | none =>
      have hred : savedToIdsLoop u2i (imap :: rest) acc = savedToIdsLoop u2i rest acc := by
        rw [savedToIdsLoop, hf]
      rw [hred,
        ih _ hL.2 (fun q hq imap' h' i hi => hacc q hq imap' (List.mem_cons_of_mem _ h') i hi),
        List.filterMap_cons]
      simp [hf]
    | some i =>
      have hfresh : ∀ q ∈ acc, q.1 ≠ i :=
        fun q hq => hacc q hq imap (List.mem_cons_self _ _) i hf
      have hred : savedToIdsLoop u2i (imap :: rest) acc =
          savedToIdsLoop u2i rest (hmInsert i imap acc) := by
        rw [savedToIdsLoop, hf]
      rw [hred,
        ih _ hL.2
          (by
            intro q hq imap' h' i' hi'
            rw [hmInsert_eq_append i imap acc hfresh] at hq
            rcases List.mem_append.mp hq with hq' | hq'
            · exact hacc q hq' imap' (List.mem_cons_of_mem _ h') i' hi'
            · have hqe : q = (i, imap) := by simpa using hq'
              subst hqe
              show i ≠ i'
              intro hcon
              subst hcon
              have huid : imap.uid = imap'.uid := hinj _ _ _ hf hi'
              exact hL.1 (huid ▸ List.mem_map_of_mem ImapId.uid h')),
        hmInsert_eq_append i imap acc hfresh, List.filterMap_cons]
      simp [hf, List.append_assoc]

/-- C6 (amended): resolving the `$` token looks each saved `ImapId` up
by uid in the *current* `uid_to_id`; every uid still present yields the
matching message id paired with the *saved* `ImapId` (the seqnum it had
when the search was saved, not recomputed); without a saved search the
call fails with the `No saved search found.` response. -/
theorem claim_C6 (is_uid : Bool) (L : List ImapId) (st : MailboxState)
    (hL : (L.map ImapId.uid).Nodup)
    (hinj : ∀ u1 u2 i, lookupKey u1 st.uid_to_id = some i →
      lookupKey u2 st.uid_to_id = some i → u1 = u2) :
    sequence_to_ids Sequence.savedSearch is_uid (some L) st =
      .ok (L.filterMap (fun imap =>
        (lookupKey imap.uid st.uid_to_id).map (fun i => (i, imap)))) ∧
    sequence_to_ids Sequence.savedSearch is_uid none st =
      .error "No saved search found." := by
  constructor
  · simp only [sequence_to_ids, Sequence.is_saved_search, Bool.not_true,
      Bool.false_eq_true, if_false]
    rw [savedToIdsLoop_eq st.uid_to_id L [] hinj hL (by simp)]
    simp
  · simp [sequence_to_ids, Sequence.is_saved_search]

theorem claim_C6_witness :
    (([⟨5, 2⟩] : List ImapId).map ImapId.uid).Nodup ∧
    (∀ u1 u2 i, lookupKey u1 mbOne.uid_to_id = some i →
      lookupKey u2 mbOne.uid_to_id = some i → u1 = u2) ∧
    (sequence_to_ids Sequence.savedSearch true (some [⟨5, 2⟩]) mbOne =
        .ok (([⟨5, 2⟩] : List ImapId).filterMap (fun imap =>
          (lookupKey imap.uid mbOne.uid_to_id).map (fun i => (i, imap)))) ∧
      sequence_to_ids Sequence.savedSearch true none mbOne =
        .error "No saved search found.") := by
  have hinj : ∀ u1 u2 i, lookupKey u1 mbOne.uid_to_id = some i →
      lookupKey u2 mbOne.uid_to_id = some i → u1 = u2 := by
    intro u1 u2 i h1 h2
    simp only [show mbOne.uid_to_id = [(5, 7)] from rfl, lookupKey] at h1 h2
    split at h1
    · split at h2
      · omega
      · cases h2
    · cases h1
  exact ⟨by decide, hinj, claim_C6 true [⟨5, 2⟩] mbOne (by decide) hinj⟩

/-- C6 counterexample: the session's snapshot holds uid 5 as message 7
with seqnum 1 (and one message in total), but resolving a saved search
recorded when that uid had seqnum 2 returns seqnum 2 — a seqnum that is
not valid in the current snapshot, i.e. not converted at query time. -/
theorem claim_C6_counterexample :
    sequence_to_ids Sequence.savedSearch true (some [⟨5, 2⟩]) mbOne = .ok [(7, ⟨5, 2⟩)] ∧
    (∀ p ∈ mbOne.id_to_imap, p.2.seqnum ≠ 2) ∧
    mbOne.total_messages = 1 :=
  ⟨rfl, by decide, rfl⟩

/-- C9: for a non-saved-search sequence, `sequence_expand_missing`
returns, ascending and without duplicates, exactly the elements of
`sequence.expand(limit)` missing from the state: uids absent from
`uid_to_id` in uid mode, values above `total_messages` in seqnum mode. -/
theorem claim_C9 (s : Sequence) (is_uid : Bool) (saved : Option (List ImapId))
    (st : MailboxState) (hs : s.is_saved_search = false) :
    (sequence_expand_missing s is_uid saved st).Sorted (· ≤ ·) ∧
    (sequence_expand_missing s is_uid saved st).Nodup ∧
    (is_uid = true → ∀ x, x ∈ sequence_expand_missing s is_uid saved st ↔
      (x ∈ Sequence.expand st.uid_max s ∧ lookupKey x st.uid_to_id = none)) ∧
    (is_uid = false → ∀ x, x ∈ sequence_expand_missing s is_uid saved st ↔
      (x ∈ Sequence.expand st.total_messages s ∧ st.total_messages < x)) := by
  have hexp : ∀ n, (Sequence.expand n s).Nodup := by
    intro n
    unfold Sequence.expand
    exact List.nodup_dedup _
  cases is_uid with
  | true =>
    simp only [sequence_expand_missing, hs, Bool.not_false, if_true, if_pos rfl]
    refine ⟨List.sorted_insertionSort _ _, ?_, ?_, by simp⟩
    · exact ((List.perm_insertionSort _ _).symm.nodup ((hexp st.uid_max).filter _))
    · intro _ x
      rw [(List.perm_insertionSort _ _).mem_iff, List.mem_filter]
      simp [Option.isNone_iff_eq_none, Option.not_isSome_iff_eq_none]
  | false =>
    simp only [sequence_expand_missing, hs, Bool.not_false, if_true]
    rw [if_neg (by simp)]
    refine ⟨List.sorted_insertionSort _ _, ?_, by simp, ?_⟩
    · exact ((List.perm_insertionSort _ _).symm.nodup ((hexp st.total_messages).filter _))
    · intro _ x
      rw [(List.perm_insertionSort _ _).mem_iff, List.mem_filter]
      simp

theorem claim_C9_witness :
    (Sequence.range (some 1) (some 6)).is_saved_search = false ∧
    ((sequence_expand_missing (Sequence.range (some 1) (some 6)) true none mbOne).Sorted
        (· ≤ ·) ∧
      (sequence_expand_missing (Sequence.range (some 1) (some 6)) true none mbOne).Nodup ∧
      (true = true → ∀ x,
        x ∈ sequence_expand_missing (Sequence.range (some 1) (some 6)) true none mbOne ↔
          (x ∈ Sequence.expand mbOne.uid_max (Sequence.range (some 1) (some 6)) ∧
            lookupKey x mbOne.uid_to_id = none)) ∧
      (true = false → ∀ x,
        x ∈ sequence_expand_missing (Sequence.range (some 1) (some 6)) true none mbOne ↔
          (x ∈ Sequence.expand mbOne.total_messages (Sequence.range (some 1) (some 6)) ∧
            mbOne.total_messages < x))) :=
  ⟨by decide, claim_C9 (Sequence.range (some 1) (some 6)) true none mbOne (by decide)⟩

end Imap
